import Mathlib

/-!
# Shallow embedding of the request-partitioning core of `Reversehobo/scb`

This file embeds the request-partitioning optimizer and the combination
machinery of `src/scb/scb.py` (functions `_combine_csv_strings`,
`_get_partition_data`, `_find_optimal_combination`, `_split_into_batches`,
`_generate_all_combinations`, `_get_request_configs`, `_construct_query`)
together with the duplicate copies in `src/scripts/request_configurator.py`
(namespace `request_configurator` below), and proves or refutes the frozen
claims about them.

Modelling conventions:
* A Python insertion-ordered dict from variable names to per-variable data is
  modelled as an ordered list with one entry per dimension; the keys only tag
  positions and never influence the numeric computation (they are kept only in
  `construct_query`, where they appear in the payload).
* `math.ceil(a / b)` on non-negative integers with `b > 0` is modelled exactly
  as `(a + b - 1) / b` on naturals; `math.prod` is a left fold starting at 1.
* Python runtime failures are modelled as `none`: the `ZeroDivisionError`
  raised by `math.ceil(total_rows / limit)` when `limit = 0`, and the
  `TypeError` raised by `zip(variables.keys(), None)` when the search loop
  leaves `best_combination = None`.
* CSV parsing and serialisation in `_combine_csv_strings` are abstracted away:
  a fragment is modelled as its list of rows (each row a list of fields).
-/

/-- Exact model of `math.ceil(n / s)` for naturals with positive `s`. -/
def ceil_div (a b : Nat) : Nat := (a + b - 1) / b

/-- Model of `math.prod`: left fold of multiplication starting at 1. -/
def py_prod (l : List Nat) : Nat := l.foldl (· * ·) 1

/-- Model of `itertools.product` applied to a list of lists: Cartesian
product, rightmost factor varying fastest. -/
def iter_product {α : Type} : List (List α) → List (List α)
  | [] => [[]]
  | l :: ls => l.flatMap (fun x => (iter_product ls).map (fun t => x :: t))

/-- One Python dict assignment `d[k] = v` on an insertion-ordered dict with
natural-number keys and values: update in place if the key is present,
otherwise append at the end. -/
def dict_set (d : List (Nat × Nat)) (k v : Nat) : List (Nat × Nat) :=
  if d.any (fun p => p.1 == k) then
    d.map (fun p => if p.1 == k then (k, v) else p)
  else d ++ [(k, v)]

/-- Python dict lookup `d[k]`, defaulting to 0 (in all embedded code paths the
key is present, so the default is never observable). -/
def dict_get (d : List (Nat × Nat)) (k : Nat) : Nat :=
  match d.find? (fun p => p.1 == k) with
  | some p => p.2
  | none => 0

/-- The `size_to_batches` dict that the loop body of `_get_partition_data`
builds for one dimension with `n` values:
`for size in range(1, min(n + 1, limit + 1)): d[ceil(n / size)] = size`.
Because later sizes overwrite earlier ones, each distinct batch count keeps
the largest size that produces it. -/
def size_to_batches (n limit : Nat) : List (Nat × Nat) :=
  (List.range (min n limit)).foldl
    (fun d i => dict_set d (ceil_div n (i + 1)) (i + 1)) []

/-- Embeds `_get_partition_data`: per dimension, the size-to-batches dict
(`batch_size_sets`) and the list of its keys in insertion order
(`number_of_batches_lists`). -/
def get_partition_data {α : Type} (vars : List (List α)) (limit : Nat) :
    List (List (Nat × Nat)) × List (List Nat) :=
  (vars.map (fun values => size_to_batches values.length limit),
   vars.map (fun values => (size_to_batches values.length limit).map Prod.fst))

/-- The list `[batch_size_sets[var][nbr] for var, nbr in zip(variables.keys(), combo)]`:
the batch size chosen for each dimension's batch count. -/
def combo_sizes (dicts : List (List (Nat × Nat))) (combo : List Nat) : List Nat :=
  (dicts.zip combo).map (fun p => dict_get p.1 p.2)

/-- One iteration of the search loop of `_find_optimal_combination`.  The
state is `(best, finished)` where `best` packs `min_request_count` (absent
means `float("inf")`) with `best_combination`, and `finished` models the
`break` taken as soon as the lower bound is reached. -/
def search_step (lower limit : Nat) (dicts : List (List (Nat × Nat)))
    (st : Option (Nat × List Nat) × Bool) (combo : List Nat) :
    Option (Nat × List Nat) × Bool :=
  if st.2 then st
  else if decide (lower ≤ py_prod combo) &&
      (match st.1 with
       | none => true
       | some b => decide (py_prod combo < b.1)) then
    if py_prod (combo_sizes dicts combo) ≤ limit then
      (some (py_prod combo, combo), py_prod combo == lower)
    else st
  else st

/-- The search loop of `_find_optimal_combination` over all combinations of
batch counts, followed by the final mapping of `best_combination` back to
batch sizes.  `none` (i.e. `best_combination = None`) models the `TypeError`
raised by `zip(variables.keys(), None)`. -/
def find_optimal_search {α : Type} (vars : List (List α)) (limit lower : Nat) :
    Option (List Nat) :=
  ((iter_product (get_partition_data vars limit).2).foldl
      (search_step lower limit (get_partition_data vars limit).1)
      (none, false)).1.map
    (fun b => combo_sizes (get_partition_data vars limit).1 b.2)

/-- Embeds `_find_optimal_combination`.  Returns the chosen batch size for
each dimension, in dimension order.  `total_rows` is
`py_prod (vars.map List.length)` and `lower_request_bound` is
`ceil_div total_rows limit`, both inlined.  `none` models a Python exception:
`ZeroDivisionError` when `limit = 0`, or the `TypeError` raised in
`find_optimal_search` when the search loop finds no combination. -/
def find_optimal_combination {α : Type} (vars : List (List α)) (limit : Nat) :
    Option (List Nat) :=
  if limit = 0 then none
  else if ceil_div (py_prod (vars.map List.length)) limit = 1 then
    some (vars.map List.length)
  else
    find_optimal_search vars limit (ceil_div (py_prod (vars.map List.length)) limit)

/-- Embeds `_split_into_batches`: the list of slices
`values[i * s : (i + 1) * s]` for `i` ranging over `range(ceil(n / s))`. -/
def split_into_batches {α : Type} (values : List α) (batch_size : Nat) :
    List (List α) :=
  (List.range (ceil_div values.length batch_size)).map
    (fun i => (values.drop (i * batch_size)).take batch_size)

/-- Embeds `_generate_all_combinations`: split every dimension into batches
according to its batch size and take the Cartesian product, one batch per
dimension (dimension order preserved; the Python dict result is the same data
keyed by variable name). -/
def generate_all_combinations {α : Type} (vars : List (List α))
    (optimal_batch_sizes : List Nat) : List (List (List α)) :=
  iter_product ((vars.zip optimal_batch_sizes).map
    (fun p => split_into_batches p.1 p.2))

/-- Embeds `_get_request_configs` in its default
`return_optimal_batch_sizes = False` form: optimizer then enumerator;
`none` when the optimizer raises. -/
def get_request_configs {α : Type} (vars : List (List α)) (limit : Nat) :
    Option (List (List (List α))) :=
  (find_optimal_combination vars limit).map
    (fun sizes => generate_all_combinations vars sizes)

/-- Embeds `_construct_query`: one selection entry per dimension, keeping the
dimension identifier and stringifying each value with `str` (modelled by the
supplied `to_str`). -/
def construct_query {α : Type} (to_str : α → String)
    (request_config : List (String × List α)) : List (String × List String) :=
  request_config.map (fun p => (p.1, p.2.map to_str))

/-- Embeds `_combine_csv_strings`, with CSV parsing and serialisation
abstracted away (a fragment is its list of rows).  Fragment 0 contributes all
of its rows; every later fragment contributes only the rows after its first
(header) row. -/
def combine_csv_strings (csv_strings : List (List (List String))) :
    List (List String) :=
  ((csv_strings.enum.map
    (fun p => if p.1 = 0 then p.2 else p.2.drop 1))).flatten

namespace request_configurator

/-! Embedding of `src/scripts/request_configurator.py`, which contains its own
copies of the partitioning core (same code, names without the leading
underscore).  Each definition below is the verbatim counterpart of the
top-level one, built from this module's own copies. -/

/-- The `size_to_batches` dict built by the loop body of
`get_partition_data` in `request_configurator.py`. -/
def size_to_batches (n limit : Nat) : List (Nat × Nat) :=
  (List.range (min n limit)).foldl
    (fun d i => dict_set d (ceil_div n (i + 1)) (i + 1)) []

/-- Embeds `get_partition_data` of `request_configurator.py`. -/
def get_partition_data {α : Type} (vars : List (List α)) (limit : Nat) :
    List (List (Nat × Nat)) × List (List Nat) :=
  (vars.map (fun values => size_to_batches values.length limit),
   vars.map (fun values => (size_to_batches values.length limit).map Prod.fst))

/-- The per-combination size lookup of `find_optimal_combination` in
`request_configurator.py`. -/
def combo_sizes (dicts : List (List (Nat × Nat))) (combo : List Nat) : List Nat :=
  (dicts.zip combo).map (fun p => dict_get p.1 p.2)

/-- One iteration of the search loop of `find_optimal_combination` in
`request_configurator.py`. -/
def search_step (lower limit : Nat) (dicts : List (List (Nat × Nat)))
    (st : Option (Nat × List Nat) × Bool) (combo : List Nat) :
    Option (Nat × List Nat) × Bool :=
  if st.2 then st
  else if decide (lower ≤ py_prod combo) &&
      (match st.1 with
       | none => true
       | some b => decide (py_prod combo < b.1)) then
    if py_prod (combo_sizes dicts combo) ≤ limit then
      (some (py_prod combo, combo), py_prod combo == lower)
    else st
  else st

/-- The search loop of `find_optimal_combination` in
`request_configurator.py`. -/
def find_optimal_search {α : Type} (vars : List (List α)) (limit lower : Nat) :
    Option (List Nat) :=
  ((iter_product (get_partition_data vars limit).2).foldl
      (search_step lower limit (get_partition_data vars limit).1)
      (none, false)).1.map
    (fun b => combo_sizes (get_partition_data vars limit).1 b.2)

/-- Embeds `find_optimal_combination` of `request_configurator.py`. -/
def find_optimal_combination {α : Type} (vars : List (List α)) (limit : Nat) :
    Option (List Nat) :=
  if limit = 0 then none
  else if ceil_div (py_prod (vars.map List.length)) limit = 1 then
    some (vars.map List.length)
  else
    find_optimal_search vars limit (ceil_div (py_prod (vars.map List.length)) limit)

/-- Embeds `split_into_batches` of `request_configurator.py`. -/
def split_into_batches {α : Type} (values : List α) (batch_size : Nat) :
    List (List α) :=
  (List.range (ceil_div values.length batch_size)).map
    (fun i => (values.drop (i * batch_size)).take batch_size)

/-- Embeds `generate_all_combinations` of `request_configurator.py`. -/
def generate_all_combinations {α : Type} (vars : List (List α))
    (optimal_batch_sizes : List Nat) : List (List (List α)) :=
  iter_product ((vars.zip optimal_batch_sizes).map
    (fun p => split_into_batches p.1 p.2))

/-- Embeds `construct_query` of `request_configurator.py`. -/
def construct_query {α : Type} (to_str : α → String)
    (request_config : List (String × List α)) : List (String × List String) :=
  request_config.map (fun p => (p.1, p.2.map to_str))

end request_configurator

/-! ## Basic facts about the arithmetic and container models -/

theorem ceil_div_le_iff {n s c : Nat} (hs : 0 < s) : ceil_div n s ≤ c ↔ n ≤ s * c := by
  unfold ceil_div
  rw [Nat.div_le_iff_le_mul_add_pred hs, Nat.add_sub_assoc hs]
  exact Nat.add_le_add_iff_right

theorem le_mul_ceil_div {n s : Nat} (hs : 0 < s) : n ≤ s * ceil_div n s :=
  (ceil_div_le_iff hs).1 le_rfl

theorem ceil_div_eq_zero_iff {n s : Nat} (hs : 0 < s) : ceil_div n s = 0 ↔ n = 0 := by
  constructor
  · intro h
    have := (ceil_div_le_iff hs).1 (le_of_eq h)
    simpa using this
  · intro h
    subst h
    have h1 : ceil_div 0 s ≤ 0 := (ceil_div_le_iff hs).2 (by simp)
    omega

theorem ceil_div_one_le {n s : Nat} (hs : 0 < s) (h : ceil_div n s = 1) : n ≤ s := by
  have := (ceil_div_le_iff hs).1 (le_of_eq h)
  simpa using this

theorem ceil_div_pred_mul_lt {n s : Nat} (hs : 0 < s) (hn : 0 < n) :
    (ceil_div n s - 1) * s < n := by
  by_contra h
  push_neg at h
  have h2 : ceil_div n s ≤ ceil_div n s - 1 :=
    (ceil_div_le_iff hs).2 (by rwa [Nat.mul_comm] at h)
  have h3 : ceil_div n s ≠ 0 := by
    intro h0
    exact absurd ((ceil_div_eq_zero_iff hs).1 h0) (by omega)
  omega

theorem ceil_div_succ {n s : Nat} (hs : 0 < s) (hn : 0 < n) :
    ceil_div n s = ceil_div (n - s) s + 1 := by
  rcases le_or_lt n s with h | h
  · have h1 : ceil_div n s ≤ 1 := (ceil_div_le_iff hs).2 (by simpa using h)
    have h2 : ceil_div n s ≠ 0 := fun h0 =>
      absurd ((ceil_div_eq_zero_iff hs).1 h0) (by omega)
    have h3 : n - s = 0 := by omega
    have h4 : ceil_div 0 s = 0 := (ceil_div_eq_zero_iff hs).2 rfl
    rw [h3]
    omega
  · unfold ceil_div
    have h1 : n + s - 1 = (n - s + s - 1) + s := by omega
    rw [h1, Nat.add_div_right _ hs]

theorem foldl_mul_shift (l : List Nat) : ∀ a : Nat, l.foldl (· * ·) a = a * l.foldl (· * ·) 1 := by
  induction l with
  | nil => intro a; simp
  | cons x l ih =>
    intro a
    simp only [List.foldl_cons]
    rw [ih (a * x), ih (1 * x), Nat.one_mul, Nat.mul_assoc]

theorem py_prod_nil : py_prod [] = 1 := rfl

theorem py_prod_cons (x : Nat) (l : List Nat) : py_prod (x :: l) = x * py_prod l := by
  unfold py_prod
  simp only [List.foldl_cons]
  rw [foldl_mul_shift l (1 * x), Nat.one_mul]

theorem py_prod_eq_prod (l : List Nat) : py_prod l = l.prod := by
  induction l with
  | nil => rfl
  | cons x l ih => rw [py_prod_cons, List.prod_cons, ih]

theorem mem_iter_product {α : Type} :
    ∀ {ls : List (List α)} {c : List α},
      c ∈ iter_product ls ↔ List.Forall₂ (fun x l => x ∈ l) c ls := by
  intro ls
  induction ls with
  | nil =>
    intro c
    constructor
    · intro hc
      simp [iter_product] at hc
      subst hc
      exact List.Forall₂.nil
    · intro h
      cases h
      simp [iter_product]
  | cons l ls ih =>
    intro c
    simp only [iter_product, List.mem_flatMap, List.mem_map]
    constructor
    · rintro ⟨x, hx, t, ht, rfl⟩
      exact List.Forall₂.cons hx (ih.1 ht)
    · intro h
      cases h with
      | cons hx ht => exact ⟨_, hx, _, ih.2 ht, rfl⟩

theorem iter_product_of_mem_nil {α : Type} :
    ∀ {ls : List (List α)}, [] ∈ ls → iter_product ls = [] := by
  intro ls
  induction ls with
  | nil => intro h; cases h
  | cons l ls ih =>
    intro h
    rcases List.mem_cons.1 h with h | h
    · rw [← h]
      simp [iter_product]
    · simp [iter_product, ih h, List.flatMap_eq_nil_iff]

theorem mem_dict_set {d : List (Nat × Nat)} {k v : Nat} {p : Nat × Nat}
    (hp : p ∈ dict_set d k v) : p ∈ d ∨ p = (k, v) := by
  unfold dict_set at hp
  split at hp
  · rcases List.mem_map.1 hp with ⟨q, hq, rfl⟩
    by_cases h : q.1 = k
    · right; simp [h]
    · left; simpa [h] using hq
  · rcases List.mem_append.1 hp with h | h
    · exact Or.inl h
    · right; simpa using h

theorem size_to_batches_mem {n limit : Nat} :
    ∀ p ∈ size_to_batches n limit,
      1 ≤ p.2 ∧ p.2 ≤ n ∧ p.2 ≤ limit ∧ ceil_div n p.2 = p.1 := by
  unfold size_to_batches
  refine List.foldlRecOn
    (motive := fun (d : List (Nat × Nat)) =>
      ∀ p ∈ d, 1 ≤ p.2 ∧ p.2 ≤ n ∧ p.2 ≤ limit ∧ ceil_div n p.2 = p.1)
    (List.range (min n limit)) _ [] ?_ ?_
  · intro p hp
    simp at hp
  · intro d hd i hi p hp
    rcases mem_dict_set hp with h | h
    · exact hd p h
    · have hi' : i < min n limit := List.mem_range.1 hi
      subst h
      exact ⟨by omega, by omega, by omega, rfl⟩

theorem dict_get_mem {d : List (Nat × Nat)} {k : Nat}
    (h : k ∈ d.map Prod.fst) : (k, dict_get d k) ∈ d := by
  rcases List.mem_map.1 h with ⟨q, hq, rfl⟩
  unfold dict_get
  rcases hfind : d.find? (fun p => p.1 == q.1) with _ | p
  · exfalso
    have := List.find?_eq_none.1 hfind q hq
    simp at this
  · have h1 := List.find?_some hfind
    have h2 := List.mem_of_find?_eq_some hfind
    have h3 : p.1 = q.1 := by simpa using h1
    rw [hfind, ← h3]
    exact h2

/-! ## Facts about the batch splitter -/

theorem split_into_batches_cons {α : Type} {values : List α} {s : Nat}
    (hs : 0 < s) (hne : values ≠ []) :
    split_into_batches values s =
      values.take s :: split_into_batches (values.drop s) s := by
  unfold split_into_batches
  have hn : 0 < values.length := List.length_pos.2 hne
  rw [List.length_drop, ceil_div_succ hs hn, List.range_succ_eq_map]
  simp only [List.map_cons, List.map_map]
  congr 1
  · simp
  · apply List.map_congr_left
    intro i hi
    simp only [Function.comp]
    rw [List.drop_drop, Nat.succ_mul, Nat.add_comm]

theorem split_flatten_aux {α : Type} {s : Nat} (hs : 0 < s) :
    ∀ (n : Nat) (values : List α), values.length ≤ n →
      (split_into_batches values s).flatten = values := by
  intro n
  induction n with
  | zero =>
    intro values h
    have hv : values = [] := List.eq_nil_of_length_eq_zero (by omega)
    subst hv
    have h0 : ceil_div 0 s = 0 := (ceil_div_eq_zero_iff hs).2 rfl
    simp [split_into_batches, h0]
  | succ n ih =>
    intro values h
    rcases eq_or_ne values [] with rfl | hne
    · have h0 : ceil_div 0 s = 0 := (ceil_div_eq_zero_iff hs).2 rfl
      simp [split_into_batches, h0]
    · rw [split_into_batches_cons hs hne, List.flatten_cons,
        ih (values.drop s) (by
          rw [List.length_drop]
          have : 0 < values.length := List.length_pos.2 hne
          omega)]
      exact List.take_append_drop s values

theorem split_into_batches_flatten {α : Type} {s : Nat} (hs : 0 < s)
    (values : List α) : (split_into_batches values s).flatten = values :=
  split_flatten_aux hs values.length values le_rfl

theorem split_into_batches_length {α : Type} (values : List α) (s : Nat) :
    (split_into_batches values s).length = ceil_div values.length s := by
  simp [split_into_batches]

theorem split_into_batches_getD {α : Type} (values : List α) (s i : Nat)
    (hi : i < ceil_div values.length s) :
    (split_into_batches values s).getD i [] = (values.drop (i * s)).take s := by
  unfold split_into_batches
  rw [List.getD_eq_getElem?_getD, List.getElem?_map, List.getElem?_range hi]
  rfl

/-! ## Facts about the result combiner -/

theorem flatten_map_eq_flatMap {α β : Type} (f : α → List β) (l : List α) :
    (l.map f).flatten = l.flatMap f := by
  induction l with
  | nil => rfl
  | cons x l ih => simp [List.flatMap_cons, ih]

theorem enumFrom_map_drop {γ : Type} :
    ∀ (l : List (List γ)) (n : Nat), n ≠ 0 →
      (List.enumFrom n l).map (fun p => if p.1 = 0 then p.2 else p.2.drop 1) =
        l.map (fun f => f.drop 1) := by
  intro l
  induction l with
  | nil => intro n _; rfl
  | cons f l ih =>
    intro n h
    simp only [List.enumFrom, List.map_cons]
    rw [if_neg h, ih (n + 1) (by omega)]

theorem combine_csv_strings_cons (f : List (List String))
    (rest : List (List (List String))) :
    combine_csv_strings (f :: rest) =
      f ++ (rest.map (fun g => g.drop 1)).flatten := by
  unfold combine_csv_strings
  rw [List.enum_cons]
  simp only [List.map_cons, if_pos rfl]
  rw [enumFrom_map_drop rest 1 (by omega)]
  simp

/-- C7: for a non-empty list of fragments, each a header row followed by data
rows, `_combine_csv_strings` returns the table whose header row is the first
fragment's header and whose data rows are the concatenation, in input order,
of every fragment's data rows; the header rows of the later fragments are
discarded (nothing relates them to the first fragment's header: they are not
validated). -/
theorem claim_c7 (header : List String) (rows : List (List String))
    (rest : List (List (List String))) :
    combine_csv_strings ((header :: rows) :: rest) =
      header :: ((header :: rows) :: rest).flatMap (fun f => f.drop 1) := by
  rw [combine_csv_strings_cons]
  rw [flatten_map_eq_flatMap]
  simp [List.flatMap_cons]

/-- C8 counterexample: applied to an empty sequence of fragments,
`_combine_csv_strings` does not fail; it returns the empty table (which the
`csv` writer serialises to the empty string), contradicting the claim that it
fails explicitly rather than returning an empty table. -/
theorem claim_c8_counterexample :
    combine_csv_strings [] = ([] : List (List String)) := rfl

/-- C8 (amended): when `_combine_csv_strings` is applied to an empty sequence
of fragments it returns normally with an empty table (no rows, serialised as
the empty string); it does not raise. -/
theorem claim_c8 (csv_strings : List (List (List String)))
    (h : csv_strings = []) : combine_csv_strings csv_strings = [] := by
  subst h
  rfl

theorem claim_c8_witness :
    combine_csv_strings ([] : List (List (List String))) = [] :=
  claim_c8 [] rfl

/-- C1: refuted as stated — the optimizer's request count is not always
minimal.  Failing input: two dimensions of 5 values each, limit 9.  The code
returns batch sizes `[1, 5]`, i.e. `ceil(5/1) * ceil(5/5) = 5` requests,
although the assignment `[3, 3]` is feasible (`3 * 3 = 9 ≤ 9`) and needs only
`ceil(5/3) * ceil(5/3) = 4` requests.  (The per-dimension reduction keeps only
the largest size for each batch count, and the largest sizes `4, 4` violate
the limit even though `3, 3` would not.)  The claim's worked example (7 and 3
values, limit 10, exactly 3 requests with sizes `[3, 3]`) does hold. -/
theorem claim_c1 :
    find_optimal_combination [([0, 1, 2, 3, 4] : List Nat), [0, 1, 2, 3, 4]] 9
        = some [1, 5]
      ∧ ceil_div 5 1 * ceil_div 5 5 = 5
      ∧ py_prod [3, 3] ≤ 9
      ∧ ceil_div 5 3 * ceil_div 5 3 = 4
      ∧ 4 < 5
      ∧ find_optimal_combination [([0, 1, 2, 3, 4, 5, 6] : List Nat), [0, 1, 2]] 10
        = some [3, 3]
      ∧ ceil_div 7 3 * ceil_div 3 3 = 3 := by
  refine ⟨by decide, by decide, by decide, by decide, by decide, by decide, by decide⟩

/-- C10: the partitioning functions of `request_configurator.py` compute
exactly the same results as the underscore-prefixed functions of the same
names in `scb.py`, on every input. -/
theorem claim_c10 :
    (∀ (α : Type) (vars : List (List α)) (limit : Nat),
      request_configurator.get_partition_data vars limit
        = get_partition_data vars limit)
    ∧ (∀ (α : Type) (vars : List (List α)) (limit : Nat),
      request_configurator.find_optimal_combination vars limit
        = find_optimal_combination vars limit)
    ∧ (∀ (α : Type) (values : List α) (s : Nat),
      request_configurator.split_into_batches values s
        = split_into_batches values s)
    ∧ (∀ (α : Type) (vars : List (List α)) (sizes : List Nat),
      request_configurator.generate_all_combinations vars sizes
        = generate_all_combinations vars sizes)
    ∧ (∀ (α : Type) (to_str : α → String) (cfg : List (String × List α)),
      request_configurator.construct_query to_str cfg
        = construct_query to_str cfg) :=
  ⟨fun _ _ _ => rfl, fun _ _ _ => rfl, fun _ _ _ => rfl,
   fun _ _ _ => rfl, fun _ _ _ => rfl⟩

/-! ## Validity of whatever the optimizer returns -/

theorem search_step_invariant {lower limit : Nat} {dicts : List (List (Nat × Nat))}
    {P : List Nat → Prop} {st : Option (Nat × List Nat) × Bool} {combo : List Nat}
    (hst : ∀ b, st.1 = some b →
      lower ≤ b.1 ∧ b.1 = py_prod b.2 ∧
        py_prod (combo_sizes dicts b.2) ≤ limit ∧ P b.2)
    (hc : P combo) :
    ∀ b, (search_step lower limit dicts st combo).1 = some b →
      lower ≤ b.1 ∧ b.1 = py_prod b.2 ∧
        py_prod (combo_sizes dicts b.2) ≤ limit ∧ P b.2 := by
  intro b hb
  unfold search_step at hb
  split at hb
  · exact hst b hb
  · split at hb
    · rename_i hcond
      split at hb
      · rename_i hsp
        have hbe : b = (py_prod combo, combo) := by
          simpa using hb.symm
        subst hbe
        have hlow : lower ≤ py_prod combo := by
          rw [Bool.and_eq_true] at hcond
          exact of_decide_eq_true hcond.1
        exact ⟨hlow, rfl, hsp, hc⟩
      · exact hst b hb
    · exact hst b hb

theorem search_foldl_invariant {lower limit : Nat} {dicts : List (List (Nat × Nat))}
    (combos : List (List Nat)) :
    ∀ b, ((combos.foldl (search_step lower limit dicts) (none, false)).1 = some b) →
      lower ≤ b.1 ∧ b.1 = py_prod b.2 ∧
        py_prod (combo_sizes dicts b.2) ≤ limit ∧ b.2 ∈ combos := by
  refine List.foldlRecOn
    (motive := fun (st : Option (Nat × List Nat) × Bool) =>
      ∀ b, st.1 = some b →
        lower ≤ b.1 ∧ b.1 = py_prod b.2 ∧
          py_prod (combo_sizes dicts b.2) ≤ limit ∧ b.2 ∈ combos)
    combos _ (none, false) ?_ ?_
  · intro b hb
    exact absurd hb (by simp)
  · intro st hst combo hcombo
    exact search_step_invariant hst hcombo

theorem combo_sizes_bounds {α : Type} {limit : Nat} :
    ∀ {combo : List Nat} {vars : List (List α)},
      List.Forall₂ (fun k (vs : List α) =>
        k ∈ (size_to_batches vs.length limit).map Prod.fst) combo vars →
      List.Forall₂ (fun s (vs : List α) => 1 ≤ s ∧ s ≤ vs.length)
        (combo_sizes (vars.map (fun vs => size_to_batches vs.length limit)) combo)
        vars := by
  intro combo vars h
  induction h with
  | nil => exact List.Forall₂.nil
  | @cons k vs combo' vars' hk htail ih =>
    refine List.Forall₂.cons ?_ ih
    have hmem := dict_get_mem hk
    have hb := size_to_batches_mem _ hmem
    exact ⟨hb.1, hb.2.1⟩

theorem find_some_valid {α : Type} {vars : List (List α)} {limit : Nat}
    {a : List Nat} (h : find_optimal_combination vars limit = some a) :
    py_prod a ≤ limit ∧
      List.Forall₂ (fun s (vs : List α) => 1 ≤ s ∧ s ≤ vs.length) a vars := by
  unfold find_optimal_combination at h
  split at h
  · exact absurd h (by simp)
  · rename_i hlim0
    have hlim : 0 < limit := Nat.pos_of_ne_zero hlim0
    split at h
    · rename_i hlower
      have ha : a = vars.map List.length := by
        have := h
        simp only [Option.some.injEq] at this
        exact this.symm
      subst ha
      constructor
      · exact ceil_div_one_le hlim hlower
      · have hpos : ∀ vs ∈ vars, 0 < vs.length := by
          intro vs hvs
          by_contra h0
          push_neg at h0
          have hlen0 : vs.length = 0 := by omega
          have h0mem : (0 : Nat) ∈ vars.map List.length :=
            List.mem_map.2 ⟨vs, hvs, hlen0⟩
          have hzero : py_prod (vars.map List.length) = 0 := by
            rw [py_prod_eq_prod]
            exact List.prod_eq_zero h0mem
          rw [hzero] at hlower
          have : ceil_div 0 limit = 0 := (ceil_div_eq_zero_iff hlim).2 rfl
          omega
        rw [List.forall₂_map_left_iff, List.forall₂_same]
        intro vs hvs
        exact ⟨hpos vs hvs, le_rfl⟩
    · unfold find_optimal_search at h
      rcases Option.map_eq_some'.1 h with ⟨b, hst, hab⟩
      have hinv := search_foldl_invariant _ b hst
      constructor
      · rw [← hab]
        exact hinv.2.2.1
      · have hmem : b.2 ∈ iter_product (get_partition_data vars limit).2 :=
          hinv.2.2.2
        have hforall := mem_iter_product.1 hmem
        simp only [get_partition_data] at hforall
        rw [List.forall₂_map_right_iff] at hforall
        rw [← hab]
        simp only [get_partition_data]
        exact combo_sizes_bounds hforall

/-- C2: whenever every dimension has at least one value and
`Limit >= number_of_dimensions`, any batch-size assignment returned by
`_find_optimal_combination` satisfies `prod of sizes <= Limit` and, for every
dimension, `1 <= size_i <= count_i`.  (The conclusion in fact holds for any
returned assignment, without the two hypotheses.) -/
theorem claim_c2 (α : Type) (vars : List (List α)) (limit : Nat)
    (hne : ∀ vs ∈ vars, vs ≠ []) (hlim : vars.length ≤ limit) :
    ∀ a, find_optimal_combination vars limit = some a →
      py_prod a ≤ limit ∧
        List.Forall₂ (fun s (vs : List α) => 1 ≤ s ∧ s ≤ vs.length) a vars :=
  fun _ h => find_some_valid h

theorem claim_c2_witness :
    py_prod [3, 3] ≤ 10 ∧
      List.Forall₂ (fun s (vs : List Nat) => 1 ≤ s ∧ s ≤ vs.length) [3, 3]
        [[0, 1, 2, 3, 4, 5, 6], [0, 1, 2]] :=
  claim_c2 Nat [[0, 1, 2, 3, 4, 5, 6], [0, 1, 2]] 10 (by decide) (by decide)
    [3, 3] (by decide)

/-! ## Behaviour when the search space is infeasible or a dimension is empty -/

theorem find_empty_dim_none {α : Type} {vars : List (List α)} {limit : Nat}
    (hmem : [] ∈ vars) (hlim : 0 < limit) :
    find_optimal_combination vars limit = none := by
  unfold find_optimal_combination
  rw [if_neg (by omega)]
  have hzero : py_prod (vars.map List.length) = 0 := by
    rw [py_prod_eq_prod]
    exact List.prod_eq_zero (List.mem_map.2 ⟨[], hmem, rfl⟩)
  rw [hzero]
  have h0 : ceil_div 0 limit = 0 := (ceil_div_eq_zero_iff hlim).2 rfl
  rw [if_neg (by omega)]
  unfold find_optimal_search
  have hkeys : ([] : List Nat) ∈ (get_partition_data vars limit).2 := by
    simp only [get_partition_data]
    refine List.mem_map.2 ⟨[], hmem, ?_⟩
    simp [size_to_batches]
  rw [iter_product_of_mem_nil hkeys]
  rfl

/-- C5: whenever no batch-size assignment at all satisfies the cell-product
constraint (no `sizes` with `1 ≤ size_i ≤ count_i` per dimension and
`prod sizes ≤ Limit`), `_find_optimal_combination` fails (modelled as `none`:
the Python code raises) and never returns a batch-size assignment, in
particular not a partial or invalid one.  (The quality of the error message
is outside the embedding: the code raises `ZeroDivisionError` or `TypeError`
rather than a bespoke configuration error.) -/
theorem claim_c5 (α : Type) (vars : List (List α)) (limit : Nat)
    (hinf : ¬ ∃ sizes : List Nat,
      List.Forall₂ (fun s (vs : List α) => 1 ≤ s ∧ s ≤ vs.length) sizes vars ∧
        py_prod sizes ≤ limit) :
    find_optimal_combination vars limit = none := by
  rcases Nat.eq_zero_or_pos limit with rfl | hlim
  · unfold find_optimal_combination
    simp
  · have hempty : [] ∈ vars := by
      by_contra hno
      apply hinf
      refine ⟨vars.map (fun _ => 1), ?_, ?_⟩
      · rw [List.forall₂_map_left_iff, List.forall₂_same]
        intro vs hvs
        have hvne : vs ≠ [] := fun h => hno (h ▸ hvs)
        exact ⟨le_rfl, List.length_pos.2 hvne⟩
      · have hone : ∀ x ∈ vars.map (fun _ => (1 : Nat)), x = 1 := by simp
        rw [py_prod_eq_prod, List.prod_eq_one hone]
        omega
    exact find_empty_dim_none hempty hlim

theorem claim_c5_witness : find_optimal_combination [([] : List Nat)] 3 = none :=
  claim_c5 Nat [[]] 3 (by
    rintro ⟨sizes, hf, -⟩
    cases hf with
    | cons h1 _ =>
      obtain ⟨ha1, ha2⟩ := h1
      simp only [List.length_nil] at ha2
      omega)

/-- C6 counterexample: for the mapping with a single dimension holding zero
values and `Limit = 1`, the claim says the optimizer succeeds with zero
request configurations, but `_find_optimal_combination` and
`_get_request_configs` fail (`None` search result makes the Python code raise
`TypeError`, modelled as `none`). -/
theorem claim_c6_counterexample :
    find_optimal_combination [([] : List Nat)] 1 = none ∧
      get_request_configs [([] : List Nat)] 1 = none :=
  ⟨rfl, rfl⟩

/-- C6 (amended): for every variables mapping in which some dimension has
zero values and every `Limit ≥ 1`, the optimizer does not return normally:
the search finds no combination, so `_find_optimal_combination` and
`_get_request_configs` raise (modelled as `none`) instead of yielding zero
request configurations. -/
theorem claim_c6 (α : Type) (vars : List (List α)) (limit : Nat)
    (hmem : [] ∈ vars) (hlim : 1 ≤ limit) :
    find_optimal_combination vars limit = none ∧
      get_request_configs vars limit = none := by
  have h := find_empty_dim_none hmem hlim
  refine ⟨h, ?_⟩
  unfold get_request_configs
  rw [h]
  rfl

theorem claim_c6_witness :
    find_optimal_combination [([0, 1] : List Nat), []] 5 = none ∧
      get_request_configs [([0, 1] : List Nat), []] 5 = none :=
  claim_c6 Nat [[0, 1], []] 5 (by simp) (by omega)

/-! ## Coverage: the request configurations tile the full cross-product -/

theorem flatMap_append_perm {α β : Type} (l : List α) (f g : α → List β) :
    (l.flatMap (fun a => f a ++ g a)).Perm (l.flatMap f ++ l.flatMap g) := by
  induction l with
  | nil => simp
  | cons x l ih =>
    simp only [List.flatMap_cons]
    refine (List.Perm.append_left _ ih).trans ?_
    rw [List.append_assoc, List.append_assoc]
    apply List.Perm.append_left
    rw [← List.append_assoc, ← List.append_assoc]
    exact List.Perm.append_right _ List.perm_append_comm

theorem flatMap_congr_perm {α β : Type} {l : List α} {f g : α → List β}
    (h : ∀ a ∈ l, (f a).Perm (g a)) : (l.flatMap f).Perm (l.flatMap g) := by
  induction l with
  | nil => simp
  | cons x l ih =>
    simp only [List.flatMap_cons]
    exact (h x (List.mem_cons_self x l)).append
      (ih (fun a ha => h a (List.mem_cons_of_mem x ha)))

theorem flatMap_swap_perm {α β γ : Type} (xs : List α) (ys : List β)
    (F : α → β → List γ) :
    (xs.flatMap (fun a => ys.flatMap (fun b => F a b))).Perm
      (ys.flatMap (fun b => xs.flatMap (fun a => F a b))) := by
  induction xs with
  | nil =>
    have h : ys.flatMap (fun b => ([] : List α).flatMap (fun a => F a b)) = [] :=
      List.flatMap_eq_nil_iff.mpr (fun _ _ => rfl)
    rw [h]
    simp
  | cons x xs ih =>
    simp only [List.flatMap_cons]
    refine (List.Perm.append_left _ ih).trans ?_
    exact (flatMap_append_perm ys (F x) (fun b => xs.flatMap (fun a => F a b))).symm

theorem flatMap_flatten_out {α β : Type} (l : List (List α)) (g : α → List β) :
    l.flatMap (fun b => b.flatMap g) = l.flatten.flatMap g := by
  induction l with
  | nil => rfl
  | cons x l ih => simp [List.flatMap_cons, List.flatMap_append, ih]

theorem coverage_core {α : Type} :
    ∀ {bls : List (List (List α))} {ls : List (List α)},
      List.Forall₂ (fun (bl : List (List α)) (l : List α) => bl.flatten = l) bls ls →
      (((iter_product bls).map iter_product).flatten).Perm (iter_product ls) := by
  intro bls ls h
  induction h with
  | nil => simp [iter_product]
  | @cons bl l bls' ls' hbl htail ih =>
    rw [flatten_map_eq_flatMap] at ih ⊢
    have step1 : (iter_product (bl :: bls')).flatMap iter_product
        = bl.flatMap (fun b => (iter_product bls').flatMap
            (fun t => b.flatMap (fun v => (iter_product t).map (fun c => v :: c)))) := by
      show ((bl.flatMap (fun b => (iter_product bls').map (fun t => b :: t))).flatMap
        iter_product) = _
      rw [List.flatMap_assoc]
      simp only [List.flatMap_map]
      rfl
    have step2 : (bl.flatMap (fun b => (iter_product bls').flatMap
          (fun t => b.flatMap (fun v => (iter_product t).map (fun c => v :: c))))).Perm
        (bl.flatMap (fun b => b.flatMap (fun v => (iter_product bls').flatMap
          (fun t => (iter_product t).map (fun c => v :: c))))) :=
      flatMap_congr_perm (fun b _ =>
        flatMap_swap_perm (iter_product bls') b
          (fun t v => (iter_product t).map (fun c => v :: c)))
    have step3 : (bl.flatMap (fun b => b.flatMap (fun v => (iter_product bls').flatMap
          (fun t => (iter_product t).map (fun c => v :: c)))))
        = l.flatMap (fun v => (iter_product bls').flatMap
            (fun t => (iter_product t).map (fun c => v :: c))) := by
      rw [flatMap_flatten_out, hbl]
    have step4 : (l.flatMap (fun v => (iter_product bls').flatMap
          (fun t => (iter_product t).map (fun c => v :: c)))).Perm
        (l.flatMap (fun v => (iter_product ls').map (fun c => v :: c))) := by
      refine flatMap_congr_perm (fun v _ => ?_)
      have hmap : (iter_product bls').flatMap
            (fun t => (iter_product t).map (fun c => v :: c))
          = ((iter_product bls').flatMap iter_product).map (fun c => v :: c) :=
        (List.map_flatMap _ _ _).symm
      rw [hmap]
      exact ih.map _
    rw [step1]
    refine step2.trans ?_
    rw [step3]
    refine step4.trans ?_
    exact List.Perm.refl _

theorem c3_aux {α : Type} :
    ∀ {vars : List (List α)} {sizes : List Nat},
      List.Forall₂ (fun (vs : List α) s => vs ≠ [] ∧ 1 ≤ s ∧ s ≤ vs.length)
        vars sizes →
      List.Forall₂ (fun (bl : List (List α)) (l : List α) => bl.flatten = l)
        ((vars.zip sizes).map (fun p => split_into_batches p.1 p.2)) vars := by
  intro vars sizes h
  induction h with
  | nil => exact List.Forall₂.nil
  | @cons vs s vars' sizes' hh htail ih =>
    refine List.Forall₂.cons ?_ ih
    exact split_into_batches_flatten hh.2.1 vs

/-- C3: for every variables mapping with non-empty value lists and every
batch-size assignment with `1 ≤ size_i ≤ count_i` per dimension, the request
configurations produced by `_generate_all_combinations` cover the full
cross-product of all dimensions' values exactly once: the concatenation of
the configurations' cell cross-products is a permutation of the full
cross-product (so every cell occurs exactly once, and no configuration
contains a cell outside the full cross-product). -/
theorem claim_c3 (α : Type) (vars : List (List α)) (sizes : List Nat)
    (h : List.Forall₂ (fun (vs : List α) s => vs ≠ [] ∧ 1 ≤ s ∧ s ≤ vs.length)
      vars sizes) :
    (((generate_all_combinations vars sizes).map iter_product).flatten).Perm
      (iter_product vars) :=
  coverage_core (c3_aux h)

theorem claim_c3_witness :
    (((generate_all_combinations [[0, 1, 2], [3, 4]] ([2, 1] : List Nat)).map
        iter_product).flatten).Perm
      (iter_product [([0, 1, 2] : List Nat), [3, 4]]) :=
  claim_c3 Nat [[0, 1, 2], [3, 4]] [2, 1]
    (by
      refine List.Forall₂.cons ⟨by decide, by decide, by decide⟩ ?_
      refine List.Forall₂.cons ⟨by decide, by decide, by decide⟩ ?_
      exact List.Forall₂.nil)

/-- C4: for a list of `n ≥ 1` values and a batch size `s ≥ 1`,
`_split_into_batches` returns exactly `ceil(n/s)` batches; batch `i` has
length `s` except the last one, whose length is `n - s*(ceil(n/s) - 1)`; and
the concatenation of the batches, in order, is exactly the input list (hence
the batches are non-overlapping, with no value duplicated or dropped). -/
theorem claim_c4 (α : Type) (values : List α) (s : Nat)
    (hn : 1 ≤ values.length) (hs : 1 ≤ s) :
    (split_into_batches values s).length = ceil_div values.length s ∧
    (∀ i, i < ceil_div values.length s →
      ((split_into_batches values s).getD i []).length =
        if i = ceil_div values.length s - 1
        then values.length - s * (ceil_div values.length s - 1)
        else s) ∧
    (split_into_batches values s).flatten = values := by
  have hs0 : 0 < s := hs
  refine ⟨split_into_batches_length values s, ?_,
    split_into_batches_flatten hs0 values⟩
  intro i hi
  rw [split_into_batches_getD values s i hi, List.length_take, List.length_drop]
  set n := values.length with hndef
  set k := ceil_div n s with hkdef
  have hub : n ≤ s * k := le_mul_ceil_div hs0
  have hlb : (k - 1) * s < n := ceil_div_pred_mul_lt hs0 (by omega)
  by_cases hik : i = k - 1
  · subst hik
    rw [if_pos rfl]
    have hk1 : 1 ≤ k := by omega
    have hks : s * k = s * (k - 1) + s := by
      have h2 : s * ((k - 1) + 1) = s * (k - 1) + s := Nat.mul_succ s (k - 1)
      rw [← h2]
      congr 1
      omega
    rw [Nat.mul_comm s (k - 1)] at hks ⊢
    rw [hks] at hub
    apply min_eq_right
    generalize (k - 1) * s = A at hub ⊢
    omega
  · rw [if_neg hik]
    have hik2 : i + 1 ≤ k - 1 := by omega
    have h5 : (i + 1) * s ≤ (k - 1) * s := Nat.mul_le_mul_right s hik2
    have h6 : (i + 1) * s = i * s + s := Nat.succ_mul i s
    rw [h6] at h5
    apply min_eq_left
    generalize hA : (k - 1) * s = A at h5 hlb
    generalize hB : i * s = B at h5 ⊢
    omega

theorem claim_c4_witness :
    (split_into_batches ([0, 1, 2, 3, 4] : List Nat) 2).length = ceil_div 5 2 ∧
    (∀ i, i < ceil_div 5 2 →
      ((split_into_batches ([0, 1, 2, 3, 4] : List Nat) 2).getD i []).length =
        if i = ceil_div 5 2 - 1 then 5 - 2 * (ceil_div 5 2 - 1) else 2) ∧
    (split_into_batches ([0, 1, 2, 3, 4] : List Nat) 2).flatten = [0, 1, 2, 3, 4] :=
  claim_c4 Nat [0, 1, 2, 3, 4] 2 (by decide) (by decide)
